import Mathlib

/-!
Shallow embedding of the classmethod-pricing-chart aggregation engine
(src/app/page.tsx): file-name month/account extraction, cost
normalization, report building, the report store with its upsert, the
clear operation, and the derived chart/ranking/total views, together
with theorems checking the specification's claims about them.

JavaScript numbers are modelled as IEEE-754 binary64 values embedded
in the rationals: parsing and addition round the exact result to the
nearest representable value (ties to even), and values that round
outside the finite double range follow the source's isFinite-rejection
path.  JavaScript records and Maps (string-keyed, insertion ordered)
are modelled as association lists with in-place update.
-/

namespace PricingChart

/-- One parsed CSV row as papaparse hands it over with header mode:
only the two columns the code reads are modelled; a missing column is
`none`. -/
structure RawRow where
  product_name : Option String
  cost : Option String
deriving DecidableEq

/-- A row-level error reported by the parsing layer (papaparse
ParseError): row number when known, plus a message. -/
structure PapaError where
  row : Option Nat
  message : String
deriving DecidableEq

/-- MonthlyReport from page.tsx. -/
structure MonthlyReport where
  month : String
  services : List (String × ℚ)
  total : ℚ
  fileName : String
  accountId : Option String
deriving DecidableEq

/-- ParseSuccess from page.tsx. -/
structure ParseSuccess where
  report : MonthlyReport
  warnings : List String
deriving DecidableEq

/-- ChartRow from page.tsx. -/
structure ChartRow where
  month : String
  services : List (String × ℚ)
deriving DecidableEq

/-- The aggregation mode toggle. -/
inductive AggMode where
  | service
  | account
deriving DecidableEq

/-- JavaScript record lookup (at most one entry per key). -/
def lookupRecord {α : Type} : List (String × α) → String → Option α
  | [], _ => none
  | p :: rest, k => if p.1 = k then some p.2 else lookupRecord rest k

/-- JavaScript record assignment: replace the value at an existing key
in place, else append the new entry. -/
def setRecord {α : Type} : List (String × α) → String → α → List (String × α)
  | [], k, v => [(k, v)]
  | p :: rest, k, v => if p.1 = k then (k, v) :: rest else p :: setRecord rest k v

lemma lookupRecord_nil {α : Type} (k : String) : lookupRecord ([] : List (String × α)) k = none :=
  rfl

lemma lookupRecord_cons {α : Type} (p : String × α) (rest : List (String × α)) (k : String) :
    lookupRecord (p :: rest) k = if p.1 = k then some p.2 else lookupRecord rest k := by
  rw [lookupRecord]

lemma setRecord_nil {α : Type} (k : String) (v : α) :
    setRecord ([] : List (String × α)) k v = [(k, v)] := by
  rw [setRecord]

lemma setRecord_cons {α : Type} (p : String × α) (rest : List (String × α)) (k : String) (v : α) :
    setRecord (p :: rest) k v = if p.1 = k then (k, v) :: rest else p :: setRecord rest k v := by
  rw [setRecord]


/-- The literal prefix of the expected file-name pattern. -/
def monthlyReportPre : List Char := "monthly-report-".data

/-- Does the regex monthly-report-(DDDD-DD)- match at the start of l?
Returns the captured month token. -/
def tryMonthAt (l : List Char) : Option (List Char) :=
  let rest := l.drop 15
  if l.take 15 = monthlyReportPre
      ∧ (rest.take 4).length = 4 ∧ (rest.take 4).all Char.isDigit
      ∧ ((rest.drop 4).take 1) = ['-']
      ∧ ((rest.drop 5).take 2).length = 2 ∧ ((rest.drop 5).take 2).all Char.isDigit
      ∧ ((rest.drop 7).take 1) = ['-']
  then some (rest.take 4 ++ '-' :: (rest.drop 5).take 2)
  else none

/-- Leftmost match of the month pattern. -/
def scanMonth : List Char → Option (List Char)
  | [] => none
  | c :: rest =>
    match tryMonthAt (c :: rest) with
    | some m => some m
    | none => scanMonth rest

/-- The source regex match monthly-report-(DDDD-DD)- on fileName, first capture group. -/
def extractMonthFromFileName (fileName : String) : Option String :=
  (scanMonth fileName.data).map String.mk

/-- Does the regex monthly-report-DDDD-DD-(D+)\.csv$ match at the start
of l, with the whole remainder consumed?  Returns the captured account
id digits. -/
def tryAccountAt (l : List Char) : Option (List Char) :=
  let rest := l.drop 15
  let ds := (rest.drop 8).takeWhile Char.isDigit
  if l.take 15 = monthlyReportPre
      ∧ (rest.take 4).length = 4 ∧ (rest.take 4).all Char.isDigit
      ∧ ((rest.drop 4).take 1) = ['-']
      ∧ ((rest.drop 5).take 2).length = 2 ∧ ((rest.drop 5).take 2).all Char.isDigit
      ∧ ((rest.drop 7).take 1) = ['-']
      ∧ ds ≠ []
      ∧ (rest.drop 8).drop ds.length = ".csv".data
  then some ds
  else none

/-- Leftmost match of the account pattern. -/
def scanAccount : List Char → Option (List Char)
  | [] => none
  | c :: rest =>
    match tryAccountAt (c :: rest) with
    | some a => some a
    | none => scanAccount rest

/-- The source regex match monthly-report-DDDD-DD-(D+).csv anchored at the
string end, first capture group. -/
def extractAccountFromFileName (fileName : String) : Option String :=
  (scanAccount fileName.data).map String.mk

/-- Digit list to natural number. -/
def digitsToNat (l : List Char) : Nat :=
  l.foldl (fun n c => 10 * n + (c.toNat - '0'.toNat)) 0

/-- Exponent part of a JS float literal: optional sign then digits;
an absent digit run contributes exponent 0 (parseFloat stops there). -/
def readExp (l : List Char) : ℤ :=
  let signAndRest : ℤ × List Char :=
    match l with
    | '-' :: rest => (-1, rest)
    | '+' :: rest => (1, rest)
    | _ => (1, l)
  let ds := signAndRest.2.takeWhile Char.isDigit
  if ds = [] then 0 else signAndRest.1 * (digitsToNat ds : ℤ)

/-- The syntactic part of Number.parseFloat: the exact decimal value
of the longest valid literal prefix, or none when the input parses to
NaN or is the literal Infinity.  Rounding the value to a double and the
overflow check happen in jsParseFloat below. -/
def jsDecimalValue (s : String) : Option ℚ :=
  let l := s.data.dropWhile Char.isWhitespace
  let signAndRest : ℚ × List Char :=
    match l with
    | '-' :: rest => (-1, rest)
    | '+' :: rest => (1, rest)
    | _ => (1, l)
  let l1 := signAndRest.2
  if l1.take 8 = "Infinity".data then none
  else
    let intPart := l1.takeWhile Char.isDigit
    let l2 := l1.drop intPart.length
    let fracPart :=
      match l2 with
      | '.' :: rest => rest.takeWhile Char.isDigit
      | _ => []
    let l3 :=
      match l2 with
      | '.' :: rest => rest.drop fracPart.length
      | _ => l2
    if intPart = [] ∧ fracPart = [] then none
    else
      let mant : ℚ :=
        (digitsToNat intPart : ℚ) + (digitsToNat fracPart : ℚ) / (10 : ℚ) ^ fracPart.length
      let e : ℤ :=
        match l3 with
        | 'e' :: rest => readExp rest
        | 'E' :: rest => readExp rest
        | _ => 0
      some (signAndRest.1 * mant * (10 : ℚ) ^ e)

/-- Round half to even: the integer nearest to x, ties going to the
even neighbour, as IEEE 754 rounding demands on the scaled mantissa. -/
def roundToEven (x : ℚ) : ℤ :=
  let f := ⌊x⌋
  let r := x - f
  if r < 1/2 then f
  else if 1/2 < r then f + 1
  else if Even f then f else f + 1

/-- Round a rational to the nearest IEEE-754 binary64 value (round to
nearest, ties to even), with the exponent floored at -1022 so that
subnormal quanta are honoured.  The result is returned as the exact
rational value of that double; the overflow check against the largest
finite double is done in toFiniteDouble. -/
def roundDouble (q : ℚ) : ℚ :=
  if q = 0 then 0
  else
    let a := |q|
    let e : ℤ := max (Int.log 2 a) (-1022)
    let m : ℤ := roundToEven (a * (2 : ℚ) ^ ((52 : ℤ) - e))
    (if q < 0 then -1 else 1) * (m : ℚ) * (2 : ℚ) ^ (e - 52)

/-- The largest finite binary64 value. -/
def doubleMaxFinite : ℚ := ((2 : ℚ) ^ (53 : ℕ) - 1) * (2 : ℚ) ^ (971 : ℕ)

/-- Round to a double and reject overflow: none exactly when IEEE
rounding would produce an infinity (the value Number.isFinite rejects);
underflow legitimately rounds to the finite value 0. -/
def toFiniteDouble (q : ℚ) : Option ℚ :=
  let r := roundDouble q
  if |r| ≤ doubleMaxFinite then some r else none

/-- JavaScript Number.parseFloat on the cleaned string, restricted to
finite results: none when the literal parses to NaN or rounds outside
the finite double range; otherwise the binary64 value of the literal. -/
def jsParseFloat (s : String) : Option ℚ :=
  (jsDecimalValue s).bind toFiniteDouble

/-- IEEE-754 binary64 addition of two finite doubles with a finite
result: the exact sum rounded to the nearest representable value.
(Claims about sums that overflow the double range are outside this
model; none of the stored aggregates in the claims reach 2^1024.) -/
def jsAdd (x y : ℚ) : ℚ := roundDouble (x + y)

/-- services[k] = (services[k] ?? 0) + v, the addition being double
addition as in the source. -/
def addToRecord (l : List (String × ℚ)) (k : String) (v : ℚ) : List (String × ℚ) :=
  setRecord l k (jsAdd ((lookupRecord l k).getD 0) v)

/-- Modelled from the spec: the exact-decimal accumulation step the
spec's invariant sentence assumes, for comparison with the double
accumulation addToRecord of the source. -/
def addToRecordExact (l : List (String × ℚ)) (k : String) (v : ℚ) : List (String × ℚ) :=
  setRecord l k (((lookupRecord l k).getD 0) + v)

/-- Remove every dollar sign and comma character from the string. -/
def stripCurrency (s : String) : String :=
  String.mk (s.data.filter (fun c => c ≠ '$' ∧ c ≠ ','))

/-- normalizeCost from page.tsx: undefined or empty input gives 0, else
strip currency characters and parseFloat, with non-finite results
normalized to 0. -/
def normalizeCost (value : Option String) : ℚ :=
  match value with
  | none => 0
  | some v =>
    if v = "" then 0
    else
      match jsParseFloat (stripCurrency v) with
      | none => 0
      | some q => q

/-- String.prototype.trim: drop whitespace from both ends. -/
def jsTrim (s : String) : String :=
  String.mk (((s.data.dropWhile Char.isWhitespace).reverse.dropWhile Char.isWhitespace).reverse)

/-- One step of the row loop in parseMonthlyReport: the accumulator is
the (services, total) pair. -/
def rowStep (acc : List (String × ℚ) × ℚ) (row : RawRow) : List (String × ℚ) × ℚ :=
  match row.product_name with
  | none => acc
  | some s =>
    let service := jsTrim s
    if service = "" then acc
    else
      let cost := normalizeCost row.cost
      if cost = 0 then acc
      else (addToRecord acc.1 service cost, jsAdd acc.2 cost)

/-- The services/total accumulation over all rows of one file. -/
def buildServicesTotal (rows : List RawRow) : List (String × ℚ) × ℚ :=
  rows.foldl rowStep ([], 0)

/-- Modelled from the spec: the row-loop step of rowStep with exact
rational addition for the running total. -/
def rowStepExact (acc : List (String × ℚ) × ℚ) (row : RawRow) : List (String × ℚ) × ℚ :=
  match row.product_name with
  | none => acc
  | some s =>
    let service := jsTrim s
    if service = "" then acc
    else
      let cost := normalizeCost row.cost
      if cost = 0 then acc
      else (addToRecordExact acc.1 service cost, acc.2 + cost)

/-- Modelled from the spec: the accumulation of buildServicesTotal with
exact rational addition in place of double addition — the idealized
arithmetic under which the spec states its grand-total invariant. -/
def buildServicesTotalExact (rows : List RawRow) : List (String × ℚ) × ℚ :=
  rows.foldl rowStepExact ([], 0)

/-- A row-level warning string, tagged with file name and row number
(or the unknown-row label). -/
def formatWarning (fileName : String) (e : PapaError) : String :=
  "「" ++ fileName ++ "」" ++
    (match e.row with
     | some n => "行 " ++ toString n
     | none => "不明な行") ++ ": " ++ e.message

/-- parseMonthlyReport from page.tsx, over the already-parsed rows and
parse-layer errors of one file. -/
def parseMonthlyReport (fileName : String) (rows : List RawRow) (errors : List PapaError) :
    Except String ParseSuccess :=
  match extractMonthFromFileName fileName with
  | none => Except.error ("ファイル名から月を特定できませんでした: " ++ fileName)
  | some month =>
    let accountId := extractAccountFromFileName fileName
    let st := buildServicesTotal rows
    let warnings :=
      if errors ≠ [] then (errors.take 5).map (formatWarning fileName) else []
    Except.ok
      { report :=
          { month := month
            services := st.1
            total := st.2
            fileName := fileName
            accountId := accountId }
        warnings := warnings }

instance {ε α : Type} [DecidableEq ε] [DecidableEq α] : DecidableEq (Except ε α) := fun a b =>
  match a, b with
  | Except.ok x, Except.ok y => decidable_of_iff (x = y) (by simp)
  | Except.error e, Except.error f => decidable_of_iff (e = f) (by simp)
  | Except.ok _, Except.error _ => isFalse (by simp)
  | Except.error _, Except.ok _ => isFalse (by simp)

/-- identityKey = accountId ?? fileName -/
def identityKey (r : MonthlyReport) : String :=
  r.accountId.getD r.fileName

/-- Array.prototype.findIndex, with none standing for the JS result -1. -/
def findIndex (p : MonthlyReport → Bool) : List MonthlyReport → Option Nat
  | [] => none
  | x :: xs => if p x then some 0 else (findIndex p xs).map (fun n => n + 1)

/-- The per-month upsert of processFiles: replace the first entry with
the same identity key in place, else push at the end. -/
def upsertReport (arr : List MonthlyReport) (report : MonthlyReport) : List MonthlyReport :=
  match findIndex (fun r => identityKey r = identityKey report) arr with
  | some i => arr.set i report
  | none => arr ++ [report]

/-- Store-level upsert: updated[report.month] = upserted list. -/
def upsertMonth (store : List (String × List MonthlyReport)) (report : MonthlyReport) :
    List (String × List MonthlyReport) :=
  setRecord store report.month (upsertReport ((lookupRecord store report.month).getD []) report)

/-- One uploaded file as the batch handler sees it: its name plus the
parsing layer's output for it. -/
structure InputFile where
  name : String
  rows : List RawRow
  errors : List PapaError
deriving DecidableEq

/-- The page state touched by the operations under study. -/
structure AppState where
  reportsByMonth : List (String × List MonthlyReport)
  warnings : List String
  errorMessage : Option String
  selectedAccounts : List String
  selectedMonths : List String
  selectedServices : List String
deriving DecidableEq

/-- parseMonthlyReport applied to one uploaded file. -/
def parseFileInput (f : InputFile) : Except String ParseSuccess :=
  parseMonthlyReport f.name f.rows f.errors

/-- processFiles from page.tsx: settle every file, commit the
successful reports through the upsert, store the first five collected
warnings, and join the failures into the error message.  An empty batch
returns immediately. -/
def processFiles (st : AppState) (files : List InputFile) : AppState :=
  if files = [] then st
  else
    let results := files.map parseFileInput
    let nextReports := results.filterMap (fun r =>
      match r with
      | Except.ok v => some v.report
      | Except.error _ => none)
    let nextWarnings := results.foldl (fun acc r =>
      match r with
      | Except.ok v => acc ++ v.warnings
      | Except.error _ => acc) []
    let failures := results.filterMap (fun r =>
      match r with
      | Except.ok _ => none
      | Except.error e => some e)
    { st with
      reportsByMonth :=
        if nextReports ≠ [] then nextReports.foldl upsertMonth st.reportsByMonth
        else st.reportsByMonth
      warnings := nextWarnings.take 5
      errorMessage :=
        if failures ≠ [] then some (String.intercalate "\n" failures) else none }

/-- clearReports from page.tsx: empty the store, the warnings and the
error message.  Nothing else is touched. -/
def clearReports (st : AppState) : AppState :=
  { st with reportsByMonth := [], warnings := [], errorMessage := none }

/-- String order as a relation for the source's lexicographic sorts. -/
def strLe (a b : String) : Prop := a ≤ b

instance : DecidableRel strLe := fun a b => inferInstanceAs (Decidable (a ≤ b))

/-- Object.keys(reportsByMonth).sort(localeCompare): the known months
in lexicographic order. -/
def sortedMonths (store : List (String × List MonthlyReport)) : List String :=
  List.insertionSort strLe (store.map Prod.fst)

/-- Every identity key occurring in the store, in traversal order, with
repetitions. -/
def allKeys (store : List (String × List MonthlyReport)) : List String :=
  store.foldr (fun p acc => p.2.map identityKey ++ acc) []

/-- The derived account universe: distinct identity keys, sorted. -/
def accounts (store : List (String × List MonthlyReport)) : List String :=
  List.insertionSort strLe (allKeys store).dedup

/-- Fold one report's service map into an accumulating record. -/
def accumulateReport (acc : List (String × ℚ)) (r : MonthlyReport) : List (String × ℚ) :=
  r.services.foldl (fun a p => addToRecord a p.1 p.2) acc

/-- The account-selection guard of the aggregation loops: skip the
report only when the selection is non-empty and does not contain its
key. -/
def skippedByAccountFilter (sel : List String) (r : MonthlyReport) : Prop :=
  sel ≠ [] ∧ identityKey r ∉ sel

instance (sel : List String) (r : MonthlyReport) : Decidable (skippedByAccountFilter sel r) :=
  inferInstanceAs (Decidable (sel ≠ [] ∧ identityKey r ∉ sel))

/-- The per-month service sums of chartData, under the account
selection. -/
def chartRowServices (sel : List String) (arr : List MonthlyReport) : List (String × ℚ) :=
  arr.foldl (fun acc r => if skippedByAccountFilter sel r then acc else accumulateReport acc r) []

/-- chartData from page.tsx: per sorted month, service sums across the
reports passing the account filter. -/
def chartData (store : List (String × List MonthlyReport)) (sel : List String) : List ChartRow :=
  (sortedMonths store).map (fun month =>
    { month := month
      services := chartRowServices sel ((lookupRecord store month).getD []) })

/-- The global per-service totals of the services memo, in encounter
order, under the account selection. -/
def serviceTotalsList (store : List (String × List MonthlyReport)) (sel : List String) :
    List (String × ℚ) :=
  store.foldl (fun totals p =>
    p.2.foldl (fun t r => if skippedByAccountFilter sel r then t else accumulateReport t r)
      totals) []

/-- Descending order on the aggregated cost, the relation the stable
sort of the services memo uses. -/
def rankDescRel (p q : String × ℚ) : Prop := q.2 ≤ p.2

instance : DecidableRel rankDescRel := fun p q => inferInstanceAs (Decidable (q.2 ≤ p.2))

instance : IsTotal (String × ℚ) rankDescRel := ⟨fun a b => le_total b.2 a.2⟩

instance : IsTrans (String × ℚ) rankDescRel := ⟨fun _ _ _ h1 h2 => le_trans h2 h1⟩

/-- The ranked (service, total) pairs: stable sort, descending total. -/
def rankedServicePairs (store : List (String × List MonthlyReport)) (sel : List String) :
    List (String × ℚ) :=
  List.insertionSort rankDescRel (serviceTotalsList store sel)

/-- The services memo from page.tsx: ranked service names. -/
def services (store : List (String × List MonthlyReport)) (sel : List String) : List String :=
  (rankedServicePairs store sel).map Prod.fst

/-- selectTop10 from page.tsx: services.slice(0, 10). -/
def selectTop10 (store : List (String × List MonthlyReport)) (sel : List String) : List String :=
  (services store sel).take 10

/-- report.services[service] ?? 0 -/
def reportServiceCost (r : MonthlyReport) (service : String) : ℚ :=
  (lookupRecord r.services service).getD 0

/-- totalCost from page.tsx (the variant with the aggregation-mode
toggle): the grand total under the selected months, services and
accounts. -/
def totalCost (store : List (String × List MonthlyReport))
    (selectedMonths selectedServices selectedAccounts : List String) (mode : AggMode) : ℚ :=
  let displayedMonths := selectedMonths
  let displayedServices := selectedServices
  let displayedSeries :=
    match mode with
    | AggMode.service => displayedServices
    | AggMode.account => selectedAccounts
  if displayedMonths = [] then 0
  else if displayedSeries = [] then 0
  else if selectedAccounts = [] then 0
  else
    displayedMonths.foldl (fun sum month =>
      (((lookupRecord store month).getD []).foldl (fun sum report =>
        if skippedByAccountFilter selectedAccounts report then sum
        else
          match mode with
          | AggMode.service =>
            displayedSeries.foldl (fun s svc => jsAdd s (reportServiceCost report svc)) sum
          | AggMode.account =>
            let accSum :=
              if selectedServices ≠ [] then
                report.services.foldl
                  (fun a p => if p.1 ∈ selectedServices then jsAdd a p.2 else a) 0
              else 0
            if identityKey report ∈ displayedSeries then jsAdd sum accSum else sum) sum)) 0

/-! ### Binary64 rounding facts -/

lemma int_log_eq_of_sandwich (q : ℚ) (e : ℤ) (hq : 0 < q)
    (h1 : (2 : ℚ) ^ e ≤ q) (h2 : q < (2 : ℚ) ^ (e + 1)) : Int.log 2 q = e := by
  have hle : e ≤ Int.log 2 q := by
    rw [← Int.zpow_le_iff_le_log (by norm_num) hq]
    exact_mod_cast h1
  have hlt : Int.log 2 q < e + 1 := by
    rw [← Int.lt_zpow_iff_log_lt (by norm_num) hq]
    exact_mod_cast h2
  omega

lemma roundToEven_of_near (x : ℚ) (m : ℤ) (h1 : (m : ℚ) - 1/2 < x) (h2 : x < (m : ℚ) + 1/2) :
    roundToEven x = m := by
  simp only [roundToEven]
  by_cases hx : (m : ℚ) ≤ x
  · have hf : ⌊x⌋ = m := by
      rw [Int.floor_eq_iff]
      exact ⟨hx, by linarith⟩
    rw [hf, if_pos (by linarith)]
  · push_neg at hx
    have hf : ⌊x⌋ = m - 1 := by
      rw [Int.floor_eq_iff]
      constructor
      · push_cast
        linarith
      · push_cast
        linarith
    rw [hf, if_neg (by push_cast; linarith), if_pos (by push_cast; linarith)]
    omega

lemma roundToEven_intCast (m : ℤ) : roundToEven (m : ℚ) = m :=
  roundToEven_of_near _ m (by linarith) (by linarith)

lemma roundToEven_tie_even (m : ℤ) (hm : Even m) : roundToEven ((m : ℚ) + 1/2) = m := by
  simp only [roundToEven]
  have hf : ⌊(m : ℚ) + 1/2⌋ = m := by
    rw [Int.floor_eq_iff]
    constructor
    · linarith
    · linarith
  rw [hf, if_neg (by linarith), if_neg (by linarith), if_pos hm]

lemma roundDouble_zero : roundDouble 0 = 0 := by
  simp [roundDouble]

lemma roundDouble_pos_eq (q : ℚ) (e m : ℤ) (hq : 0 < q) (hel : (-1022 : ℤ) ≤ e)
    (h1 : (2 : ℚ) ^ e ≤ q) (h2 : q < (2 : ℚ) ^ (e + 1))
    (hm : roundToEven (q * (2 : ℚ) ^ ((52 : ℤ) - e)) = m) :
    roundDouble q = (m : ℚ) * (2 : ℚ) ^ (e - 52) := by
  have hlog : Int.log 2 q = e := int_log_eq_of_sandwich q e hq h1 h2
  simp only [roundDouble]
  rw [if_neg (ne_of_gt hq), abs_of_pos hq, hlog, max_eq_left hel, hm,
    if_neg (not_lt.mpr hq.le)]
  ring

lemma roundDouble_eq_self (q : ℚ) (e m : ℤ) (hq : 0 < q) (hel : (-1022 : ℤ) ≤ e)
    (h1 : (2 : ℚ) ^ e ≤ q) (h2 : q < (2 : ℚ) ^ (e + 1))
    (hint : q * (2 : ℚ) ^ ((52 : ℤ) - e) = (m : ℚ)) :
    roundDouble q = q := by
  have hr : roundToEven (q * (2 : ℚ) ^ ((52 : ℤ) - e)) = m := by
    rw [hint]
    exact roundToEven_intCast m
  rw [roundDouble_pos_eq q e m hq hel h1 h2 hr, ← hint, mul_assoc,
    ← zpow_add₀ (by norm_num : (2 : ℚ) ≠ 0)]
  norm_num

lemma roundDouble_neg (q : ℚ) : roundDouble (-q) = -roundDouble q := by
  by_cases hq : q = 0
  · simp [hq, roundDouble]
  · have hnq : -q ≠ 0 := neg_ne_zero.mpr hq
    simp only [roundDouble]
    rw [if_neg hnq, if_neg hq, abs_neg]
    rcases lt_or_gt_of_ne hq with hlt | hgt
    · rw [if_pos hlt, if_neg (by linarith : ¬ -q < 0)]
      ring
    · rw [if_neg (by linarith : ¬ q < 0), if_pos (by linarith : -q < 0)]
      ring

lemma jsAdd_zero_left_round (x : ℚ) : jsAdd 0 x = roundDouble x := by
  rw [jsAdd, zero_add]

/-! ### The doubles appearing in the concrete scenarios -/

/-- The binary64 value of the literal 0.09. -/
def double009 : ℚ := 3242591731706757 / 36028797018963968

/-- The binary64 value of the literal 0.01. -/
def double001 : ℚ := 5764607523034235 / 576460752303423488

/-- The binary64 sum of the doubles 0.09 and 0.01: one unit in the last
place below the binary64 value of 0.1. -/
def doubleSum0901 : ℚ := 7205759403792793 / 72057594037927936

lemma roundDouble_009 : roundDouble (9 / 100 : ℚ) = double009 := by
  have h := roundDouble_pos_eq (9 / 100) (-4) 6485183463413514 (by norm_num) (by norm_num)
    (by norm_num) (by norm_num)
    (roundToEven_of_near _ 6485183463413514 (by norm_num) (by norm_num))
  rw [h, double009]
  norm_num

lemma roundDouble_001 : roundDouble (1 / 100 : ℚ) = double001 := by
  have h := roundDouble_pos_eq (1 / 100) (-7) 5764607523034235 (by norm_num) (by norm_num)
    (by norm_num) (by norm_num)
    (roundToEven_of_near _ 5764607523034235 (by norm_num) (by norm_num))
  rw [h, double001]
  norm_num

lemma roundDouble_009_self : roundDouble double009 = double009 :=
  roundDouble_eq_self double009 (-4) 6485183463413514 (by norm_num [double009])
    (by norm_num) (by norm_num [double009]) (by norm_num [double009])
    (by norm_num [double009])

lemma roundDouble_sum0901 : roundDouble (double009 + double001) = doubleSum0901 := by
  have h := roundDouble_pos_eq (double009 + double001) (-4) 7205759403792793
    (by norm_num [double009, double001]) (by norm_num)
    (by norm_num [double009, double001]) (by norm_num [double009, double001])
    (roundToEven_of_near _ 7205759403792793 (by norm_num [double009, double001])
      (by norm_num [double009, double001]))
  rw [h, doubleSum0901]
  norm_num

lemma roundDouble_one : roundDouble (1 : ℚ) = 1 :=
  roundDouble_eq_self 1 0 4503599627370496 (by norm_num) (by norm_num) (by norm_num)
    (by norm_num) (by norm_num)

lemma roundDouble_two : roundDouble (2 : ℚ) = 2 :=
  roundDouble_eq_self 2 1 4503599627370496 (by norm_num) (by norm_num) (by norm_num)
    (by norm_num) (by norm_num)

lemma roundDouble_three : roundDouble (3 : ℚ) = 3 :=
  roundDouble_eq_self 3 1 6755399441055744 (by norm_num) (by norm_num) (by norm_num)
    (by norm_num) (by norm_num)

lemma roundDouble_five : roundDouble (5 : ℚ) = 5 :=
  roundDouble_eq_self 5 2 5629499534213120 (by norm_num) (by norm_num) (by norm_num)
    (by norm_num) (by norm_num)

lemma roundDouble_1e16 : roundDouble (10000000000000000 : ℚ) = 10000000000000000 :=
  roundDouble_eq_self 10000000000000000 53 5000000000000000 (by norm_num) (by norm_num)
    (by norm_num) (by norm_num) (by norm_num)

lemma roundDouble_1e16_add_two :
    roundDouble (10000000000000002 : ℚ) = 10000000000000002 :=
  roundDouble_eq_self 10000000000000002 53 5000000000000001 (by norm_num) (by norm_num)
    (by norm_num) (by norm_num) (by norm_num)

/-- The tie at 10^16 + 1: halfway between the doubles 10^16 and
10^16 + 2, rounded to the even mantissa, i.e. down to 10^16. -/
lemma roundDouble_1e16_add_one :
    roundDouble (10000000000000001 : ℚ) = 10000000000000000 := by
  have hm : roundToEven ((10000000000000001 : ℚ) * (2 : ℚ) ^ ((52 : ℤ) - 53)) =
      5000000000000000 := by
    rw [show ((10000000000000001 : ℚ) * (2 : ℚ) ^ ((52 : ℤ) - 53)) =
        ((5000000000000000 : ℤ) : ℚ) + 1/2 by push_cast; norm_num]
    exact roundToEven_tie_even 5000000000000000 (by decide)
  have h := roundDouble_pos_eq 10000000000000001 53 5000000000000000 (by norm_num)
    (by norm_num) (by norm_num) (by norm_num) hm
  rw [h]
  norm_num

lemma toFiniteDouble_of_roundDouble (q r : ℚ) (h : roundDouble q = r)
    (habs : |r| ≤ doubleMaxFinite) : toFiniteDouble q = some r := by
  simp only [toFiniteDouble]
  rw [h, if_pos habs]

lemma normalizeCost_of_parts (v : String) (q r : ℚ) (hne : v ≠ "")
    (hdec : jsDecimalValue (stripCurrency v) = some q)
    (hround : roundDouble q = r) (habs : |r| ≤ doubleMaxFinite) :
    normalizeCost (some v) = r := by
  simp only [normalizeCost, jsParseFloat]
  rw [if_neg hne, hdec]
  simp only [Option.bind]
  rw [toFiniteDouble_of_roundDouble q r hround habs]

lemma normalizeCost_009 : normalizeCost (some "$0.09") = double009 :=
  normalizeCost_of_parts _ (9/100) _ (by decide)
    (by
      simp +decide [jsDecimalValue, stripCurrency, digitsToNat, readExp,
        List.dropWhile, List.takeWhile, List.filter, List.take]
      norm_num)
    roundDouble_009
    (abs_le.mpr ⟨by norm_num [double009, doubleMaxFinite],
      by norm_num [double009, doubleMaxFinite]⟩)

lemma normalizeCost_001 : normalizeCost (some "$0.01") = double001 :=
  normalizeCost_of_parts _ (1/100) _ (by decide)
    (by
      simp +decide [jsDecimalValue, stripCurrency, digitsToNat, readExp,
        List.dropWhile, List.takeWhile, List.filter, List.take])
    roundDouble_001
    (abs_le.mpr ⟨by norm_num [double001, doubleMaxFinite],
      by norm_num [double001, doubleMaxFinite]⟩)

lemma normalizeCost_zero_lit : normalizeCost (some "0") = 0 :=
  normalizeCost_of_parts _ 0 _ (by decide)
    (by
      simp +decide [jsDecimalValue, stripCurrency, digitsToNat, readExp,
        List.dropWhile, List.takeWhile, List.filter, List.take])
    roundDouble_zero
    (abs_le.mpr ⟨by norm_num [doubleMaxFinite], by norm_num [doubleMaxFinite]⟩)

lemma normalizeCost_one : normalizeCost (some "1") = 1 :=
  normalizeCost_of_parts _ 1 _ (by decide)
    (by
      simp +decide [jsDecimalValue, stripCurrency, digitsToNat, readExp,
        List.dropWhile, List.takeWhile, List.filter, List.take])
    roundDouble_one
    (abs_le.mpr ⟨by norm_num [doubleMaxFinite], by norm_num [doubleMaxFinite]⟩)

lemma normalizeCost_two : normalizeCost (some "2") = 2 :=
  normalizeCost_of_parts _ 2 _ (by decide)
    (by
      simp +decide [jsDecimalValue, stripCurrency, digitsToNat, readExp,
        List.dropWhile, List.takeWhile, List.filter, List.take])
    roundDouble_two
    (abs_le.mpr ⟨by norm_num [doubleMaxFinite], by norm_num [doubleMaxFinite]⟩)

lemma normalizeCost_three : normalizeCost (some "3") = 3 :=
  normalizeCost_of_parts _ 3 _ (by decide)
    (by
      simp +decide [jsDecimalValue, stripCurrency, digitsToNat, readExp,
        List.dropWhile, List.takeWhile, List.filter, List.take])
    roundDouble_three
    (abs_le.mpr ⟨by norm_num [doubleMaxFinite], by norm_num [doubleMaxFinite]⟩)

lemma normalizeCost_1e16 : normalizeCost (some "10000000000000000") = 10000000000000000 :=
  normalizeCost_of_parts _ 10000000000000000 _ (by decide)
    (by
      simp +decide [jsDecimalValue, stripCurrency, digitsToNat, readExp,
        List.dropWhile, List.takeWhile, List.filter, List.take])
    roundDouble_1e16
    (abs_le.mpr ⟨by norm_num [doubleMaxFinite], by norm_num [doubleMaxFinite]⟩)

lemma normalizeCost_neg_one : normalizeCost (some "-1") = -1 :=
  normalizeCost_of_parts _ (-1) _ (by decide)
    (by
      simp +decide [jsDecimalValue, stripCurrency, digitsToNat, readExp,
        List.dropWhile, List.takeWhile, List.filter, List.take])
    (by rw [show ((-1 : ℚ)) = -(1 : ℚ) by norm_num, roundDouble_neg, roundDouble_one])
    (abs_le.mpr ⟨by norm_num [doubleMaxFinite], by norm_num [doubleMaxFinite]⟩)

lemma jsAdd_zero_009 : jsAdd 0 double009 = double009 := by
  rw [jsAdd_zero_left_round, roundDouble_009_self]

lemma jsAdd_009_001 : jsAdd double009 double001 = doubleSum0901 := by
  rw [jsAdd, roundDouble_sum0901]

lemma jsAdd_zero_one : jsAdd 0 1 = 1 := by
  rw [jsAdd_zero_left_round, roundDouble_one]

lemma jsAdd_one_one : jsAdd 1 1 = 2 := by
  rw [jsAdd, show ((1 : ℚ) + 1) = 2 by norm_num, roundDouble_two]

lemma jsAdd_one_1e16 : jsAdd 1 10000000000000000 = 10000000000000000 := by
  rw [jsAdd, show ((1 : ℚ) + 10000000000000000) = 10000000000000001 by norm_num,
    roundDouble_1e16_add_one]

lemma jsAdd_two_1e16 : jsAdd 2 10000000000000000 = 10000000000000002 := by
  rw [jsAdd, show ((2 : ℚ) + 10000000000000000) = 10000000000000002 by norm_num,
    roundDouble_1e16_add_two]

lemma jsAdd_zero_two : jsAdd 0 2 = 2 := by
  rw [jsAdd_zero_left_round, roundDouble_two]

lemma jsAdd_zero_three : jsAdd 0 3 = 3 := by
  rw [jsAdd_zero_left_round, roundDouble_three]

lemma jsAdd_two_three : jsAdd 2 3 = 5 := by
  rw [jsAdd, show ((2 : ℚ) + 3) = 5 by norm_num, roundDouble_five]

lemma jsAdd_zero_neg_one : jsAdd 0 (-1) = -1 := by
  rw [jsAdd_zero_left_round, show ((-1 : ℚ)) = -(1 : ℚ) by norm_num, roundDouble_neg,
    roundDouble_one]

lemma roundToEven_ge_sub_half (x : ℚ) : x - 1/2 ≤ (roundToEven x : ℚ) := by
  simp only [roundToEven]
  have hf1 : (⌊x⌋ : ℚ) ≤ x := Int.floor_le x
  have hf2 : x - 1 < (⌊x⌋ : ℚ) := Int.sub_one_lt_floor x
  by_cases h1 : x - ⌊x⌋ < 1/2
  · rw [if_pos h1]
    linarith
  · rw [if_neg h1]
    by_cases h2 : 1/2 < x - ⌊x⌋
    · rw [if_pos h2]
      push_cast
      linarith
    · rw [if_neg h2]
      by_cases h3 : Even ⌊x⌋
      · rw [if_pos h3]
        linarith
      · rw [if_neg h3]
        push_cast
        linarith

/-- A value at or above 2^1024 rounds outside the finite double range:
this is the overflow-to-Infinity path of Number.parseFloat, which
Number.isFinite then rejects. -/
lemma toFiniteDouble_none_of_ge_big (q : ℚ) (hq : (2 : ℚ) ^ (1024 : ℤ) ≤ q) :
    toFiniteDouble q = none := by
  have hq0 : 0 < q := lt_of_lt_of_le (by norm_num) hq
  have hlog : (1024 : ℤ) ≤ Int.log 2 q := by
    rw [← Int.zpow_le_iff_le_log (by norm_num) hq0]
    exact_mod_cast hq
  have hmax : max (Int.log 2 q) (-1022) = Int.log 2 q :=
    max_eq_left (le_trans (by norm_num) hlog)
  have hqe : (2 : ℚ) ^ Int.log 2 q ≤ q := by
    have := Int.zpow_log_le_self (b := 2) (R := ℚ) (by norm_num) hq0
    exact_mod_cast this
  set e := Int.log 2 q with he
  set m := roundToEven (q * (2 : ℚ) ^ ((52 : ℤ) - e)) with hm
  have hx : (2 : ℚ) ^ (52 : ℤ) ≤ q * (2 : ℚ) ^ ((52 : ℤ) - e) := by
    have h2e : (0 : ℚ) < (2 : ℚ) ^ ((52 : ℤ) - e) := zpow_pos (by norm_num) _
    calc (2 : ℚ) ^ (52 : ℤ) = (2 : ℚ) ^ e * (2 : ℚ) ^ ((52 : ℤ) - e) := by
          rw [← zpow_add₀ (by norm_num : (2 : ℚ) ≠ 0)]
          norm_num
      _ ≤ q * (2 : ℚ) ^ ((52 : ℤ) - e) := by
          exact mul_le_mul_of_nonneg_right hqe (le_of_lt h2e)
  have hmge : (2 : ℚ) ^ (52 : ℤ) - 1/2 ≤ (m : ℚ) :=
    le_trans (by linarith [roundToEven_ge_sub_half (q * (2 : ℚ) ^ ((52 : ℤ) - e))])
      (le_refl _)
  have hmge2 : (2 : ℚ) ^ (52 : ℤ) ≤ (m : ℚ) := by
    have h1 : ((4503599627370495 : ℤ) : ℚ) < (m : ℚ) := by
      have h52 : ((2 : ℚ) ^ (52 : ℤ)) = 4503599627370496 := by norm_num
      push_cast
      linarith [hmge, h52]
    have h2 : (4503599627370495 : ℤ) < m := by exact_mod_cast h1
    have h3 : (4503599627370496 : ℤ) ≤ m := by omega
    calc (2 : ℚ) ^ (52 : ℤ) = ((4503599627370496 : ℤ) : ℚ) := by norm_num
      _ ≤ (m : ℚ) := by exact_mod_cast h3
  have hres : doubleMaxFinite < |(if q < 0 then (-1 : ℚ) else 1) * (m : ℚ) *
      (2 : ℚ) ^ (e - 52)| := by
    rw [if_neg (not_lt.mpr hq0.le)]
    have h2e : (0 : ℚ) < (2 : ℚ) ^ (e - 52) := zpow_pos (by norm_num) _
    have hm0 : (0 : ℚ) ≤ (m : ℚ) := le_trans (by norm_num) hmge2
    rw [one_mul, abs_of_nonneg (mul_nonneg hm0 (le_of_lt h2e))]
    have hbig : (2 : ℚ) ^ (1024 : ℤ) ≤ (m : ℚ) * (2 : ℚ) ^ (e - 52) := by
      calc (2 : ℚ) ^ (1024 : ℤ) ≤ (2 : ℚ) ^ e := by
            apply zpow_le_zpow_right₀ (by norm_num) (le_trans (by norm_num) hlog)
        _ = (2 : ℚ) ^ (52 : ℤ) * (2 : ℚ) ^ (e - 52) := by
            rw [← zpow_add₀ (by norm_num : (2 : ℚ) ≠ 0)]
            norm_num
        _ ≤ (m : ℚ) * (2 : ℚ) ^ (e - 52) :=
            mul_le_mul_of_nonneg_right hmge2 (le_of_lt h2e)
    have : doubleMaxFinite < (2 : ℚ) ^ (1024 : ℤ) := by norm_num [doubleMaxFinite]
    linarith
  simp only [toFiniteDouble, roundDouble]
  rw [if_neg (ne_of_gt hq0), abs_of_pos hq0, ← he, hmax, ← hm,
    if_neg (not_le.mpr hres)]

/-- A positive value below half the smallest subnormal double rounds to
zero: the underflow path of Number.parseFloat, which normalizeCost then
treats as the (finite) cost 0. -/
lemma roundDouble_underflow_pos (q : ℚ) (h0 : 0 < q)
    (hsmall : q < (2 : ℚ) ^ (-1022 : ℤ))
    (htiny : q * (2 : ℚ) ^ (1074 : ℤ) < 1/2) : roundDouble q = 0 := by
  have hlog : Int.log 2 q < -1022 := by
    rw [← Int.lt_zpow_iff_log_lt (by norm_num) h0]
    exact_mod_cast hsmall
  have hmax : max (Int.log 2 q) (-1022) = (-1022 : ℤ) := max_eq_right (le_of_lt hlog)
  have h2p : (0 : ℚ) < (2 : ℚ) ^ (1074 : ℤ) := zpow_pos (by norm_num) _
  have hm : roundToEven (q * (2 : ℚ) ^ ((52 : ℤ) - -1022)) = 0 := by
    rw [show ((52 : ℤ) - -1022) = (1074 : ℤ) by norm_num]
    refine roundToEven_of_near _ 0 ?_ ?_
    · push_cast
      nlinarith [mul_pos h0 h2p]
    · push_cast
      linarith
  simp only [roundDouble]
  rw [if_neg (ne_of_gt h0), abs_of_pos h0, hmax, hm, if_neg (not_lt.mpr h0.le)]
  ring

lemma normalizeCost_of_nonfinite (v : String) (q : ℚ) (hne : v ≠ "")
    (hdec : jsDecimalValue (stripCurrency v) = some q)
    (htf : toFiniteDouble q = none) : normalizeCost (some v) = 0 := by
  simp only [normalizeCost, jsParseFloat]
  rw [if_neg hne, hdec]
  simp only [Option.bind]
  rw [htf]

lemma jsDecimalValue_1e400 :
    jsDecimalValue (stripCurrency "1e400") = some ((10 : ℚ) ^ (400 : ℤ)) := by
  simp [jsDecimalValue, stripCurrency, digitsToNat, readExp,
    List.dropWhile, List.takeWhile, List.filter, List.take]

lemma toFiniteDouble_1e400 : toFiniteDouble ((10 : ℚ) ^ (400 : ℤ)) = none :=
  toFiniteDouble_none_of_ge_big _ (by norm_num)

/-- parseFloat of 1e400 overflows to Infinity, which Number.isFinite rejects,
so normalizeCost degrades the value to 0 and the row is skipped. -/
lemma normalizeCost_overflow : normalizeCost (some "1e400") = 0 :=
  normalizeCost_of_nonfinite _ _ (by decide) jsDecimalValue_1e400 toFiniteDouble_1e400

lemma jsDecimalValue_1e_neg400 :
    jsDecimalValue (stripCurrency "1e-400") = some ((10 : ℚ) ^ (-400 : ℤ)) := by
  simp [jsDecimalValue, stripCurrency, digitsToNat, readExp,
    List.dropWhile, List.takeWhile, List.filter, List.take]

lemma roundDouble_1e_neg400 : roundDouble ((10 : ℚ) ^ (-400 : ℤ)) = 0 :=
  roundDouble_underflow_pos _ (by positivity) (by norm_num) (by norm_num)

/-- parseFloat of 1e-400 underflows to 0, a finite double, so normalizeCost
returns 0 and the row is skipped by the cost === 0 check. -/
lemma normalizeCost_underflow : normalizeCost (some "1e-400") = 0 :=
  normalizeCost_of_parts _ ((10 : ℚ) ^ (-400 : ℤ)) 0 (by decide) jsDecimalValue_1e_neg400
    roundDouble_1e_neg400 (by rw [abs_zero]; norm_num [doubleMaxFinite])

/-! ### Concrete sample data used by counterexamples and witnesses -/

/-- A stored report for one account in 2024-05. -/
def sampleReport : MonthlyReport :=
  { month := "2024-05"
    services := [("Amazon S3", 1)]
    total := 1
    fileName := "monthly-report-2024-05-111111111111.csv"
    accountId := some "111111111111" }

/-- A one-month, one-account store. -/
def sampleStore : List (String × List MonthlyReport) := [("2024-05", [sampleReport])]

/-- A populated application state with a non-empty selection in each of
the three dimensions. -/
def sampleState : AppState :=
  { reportsByMonth := sampleStore
    warnings := ["w"]
    errorMessage := some "e"
    selectedAccounts := ["111111111111"]
    selectedMonths := ["2024-05"]
    selectedServices := ["Amazon S3"] }

/-! ### C9: the round-trip scenario -/

/-- The round-trip file evaluated through the binary64 arithmetic the
source performs: the two Amazon S3 costs are the doubles nearest 0.09
and 0.01, and their double sum is one ulp below the double 0.1. -/
lemma roundtrip_parse_eval :
    parseMonthlyReport "monthly-report-2024-05-123456789012.csv"
      [⟨some "Amazon S3", some "$0.09"⟩, ⟨some "Amazon S3", some "$0.01"⟩,
       ⟨some "AWS Config", some "0"⟩] [] =
    Except.ok ⟨⟨"2024-05", [("Amazon S3", doubleSum0901)], doubleSum0901,
      "monthly-report-2024-05-123456789012.csv", some "123456789012"⟩, []⟩ := by
  simp +decide [parseMonthlyReport, extractMonthFromFileName, extractAccountFromFileName,
    scanMonth, scanAccount, tryMonthAt, tryAccountAt, monthlyReportPre,
    buildServicesTotal, rowStep, jsTrim, normalizeCost_009, normalizeCost_001,
    normalizeCost_zero_lit, jsAdd_zero_009, jsAdd_009_001, addToRecord,
    setRecord_cons, setRecord_nil, lookupRecord_cons, lookupRecord_nil,
    show double009 ≠ 0 by norm_num [double009],
    show double001 ≠ 0 by norm_num [double001],
    List.dropWhile, List.takeWhile, List.filter, List.take, List.drop]

/-- Counterexample to claim C9: at the claim's own input the produced
total is the double 0.09999999999999999…, not exactly 0.10 — double
addition of the parsed costs rounds one ulp below the double 0.1. -/
theorem roundtrip_total_not_exact_counterexample :
    parseMonthlyReport "monthly-report-2024-05-123456789012.csv"
      [⟨some "Amazon S3", some "$0.09"⟩, ⟨some "Amazon S3", some "$0.01"⟩,
       ⟨some "AWS Config", some "0"⟩] [] =
    Except.ok ⟨⟨"2024-05", [("Amazon S3", doubleSum0901)], doubleSum0901,
      "monthly-report-2024-05-123456789012.csv", some "123456789012"⟩, []⟩ ∧
    doubleSum0901 ≠ 1/10 :=
  ⟨roundtrip_parse_eval, by norm_num [doubleSum0901]⟩

/-- Claim C9 amended: the round-trip file produces a report whose only
service entry and total are the binary64 sum of the doubles nearest
0.09 and 0.01 — the value 7205759403792793 / 2^56, one ulp below the
double nearest 0.1, which displays as $0.10 after two-digit formatting;
the zero-cost AWS Config row is skipped and the account id is
extracted. -/
theorem roundtrip_sample_report :
    parseMonthlyReport "monthly-report-2024-05-123456789012.csv"
      [⟨some "Amazon S3", some "$0.09"⟩, ⟨some "Amazon S3", some "$0.01"⟩,
       ⟨some "AWS Config", some "0"⟩] [] =
    Except.ok ⟨⟨"2024-05", [("Amazon S3", doubleSum0901)], doubleSum0901,
      "monthly-report-2024-05-123456789012.csv", some "123456789012"⟩, []⟩ :=
  roundtrip_parse_eval

/-! ### C2: what clearReports does and does not reset -/

/-- Counterexample to claim C2: in a state with a selected account,
clearing the store leaves that account selected — the selection sets
are not emptied by clearReports. -/
theorem clearReports_selection_counterexample :
    (clearReports sampleState).selectedAccounts = ["111111111111"] ∧
    (clearReports sampleState).selectedAccounts ≠ [] := by
  constructor
  · rfl
  · simp [clearReports, sampleState]

/-- Claim C2 amended: clearReports empties the store (hence the derived
month, account and service universes become empty) and clears the
warnings and the error message, but the three selection sets are left
unchanged: whatever was selected before the clear is still selected
afterwards. -/
theorem clearReports_clears_store_keeps_selections (st : AppState) :
    (clearReports st).reportsByMonth = [] ∧
    (clearReports st).warnings = [] ∧
    (clearReports st).errorMessage = none ∧
    sortedMonths (clearReports st).reportsByMonth = [] ∧
    accounts (clearReports st).reportsByMonth = [] ∧
    services (clearReports st).reportsByMonth (clearReports st).selectedAccounts = [] ∧
    (clearReports st).selectedAccounts = st.selectedAccounts ∧
    (clearReports st).selectedMonths = st.selectedMonths ∧
    (clearReports st).selectedServices = st.selectedServices := by
  refine ⟨rfl, rfl, rfl, rfl, rfl, rfl, rfl, rfl, rfl⟩

/-! ### C1: the account filter with an empty selection -/

lemma lookupRecord_mem {α : Type} (store : List (String × α)) (k : String) (v : α)
    (h : lookupRecord store k = some v) : (k, v) ∈ store := by
  induction store with
  | nil => simp [lookupRecord] at h
  | cons p rest ih =>
    rw [lookupRecord] at h
    by_cases hk : p.1 = k
    · rw [if_pos hk] at h
      simp only [Option.some.injEq] at h
      have hp : (k, v) = p := by rw [← hk, ← h]
      rw [hp]
      exact List.mem_cons_self p rest
    · rw [if_neg hk] at h
      exact List.mem_cons_of_mem _ (ih h)

lemma mem_allKeys (store : List (String × List MonthlyReport)) (m : String)
    (arr : List MonthlyReport) (r : MonthlyReport) (h1 : (m, arr) ∈ store) (h2 : r ∈ arr) :
    identityKey r ∈ allKeys store := by
  induction store with
  | nil => simp at h1
  | cons p rest ih =>
    have hstep : allKeys (p :: rest) = p.2.map identityKey ++ allKeys rest := rfl
    rw [hstep]
    rcases List.mem_cons.mp h1 with h | h
    · subst h
      exact List.mem_append_left _ (List.mem_map_of_mem identityKey h2)
    · exact List.mem_append_right _ (ih h)

lemma mem_accounts_of_mem_allKeys (store : List (String × List MonthlyReport)) (a : String)
    (h : a ∈ allKeys store) : a ∈ accounts store := by
  unfold accounts
  rw [List.mem_insertionSort]
  exact List.mem_dedup.mpr h

lemma chartFold_of_all_mem (sel : List String) (arr : List MonthlyReport)
    (h : ∀ r ∈ arr, identityKey r ∈ sel) :
    ∀ acc, arr.foldl (fun acc r => if skippedByAccountFilter sel r then acc
        else accumulateReport acc r) acc =
      arr.foldl (fun acc r => accumulateReport acc r) acc := by
  induction arr with
  | nil => intro acc; rfl
  | cons r rest ih =>
    intro acc
    have hr : ¬ skippedByAccountFilter sel r := by
      intro hs
      exact hs.2 (h r (List.mem_cons_self r rest))
    simp only [List.foldl_cons, if_neg hr]
    exact ih (fun x hx => h x (List.mem_cons_of_mem _ hx)) _

lemma chartFold_empty_sel (arr : List MonthlyReport) :
    ∀ acc, arr.foldl (fun acc r => if skippedByAccountFilter [] r then acc
        else accumulateReport acc r) acc =
      arr.foldl (fun acc r => accumulateReport acc r) acc := by
  induction arr with
  | nil => intro acc; rfl
  | cons r rest ih =>
    intro acc
    have hr : ¬ skippedByAccountFilter ([] : List String) r := by
      intro hs
      exact hs.1 rfl
    simp only [List.foldl_cons, if_neg hr]
    exact ih _

lemma chartRowServices_all_mem (sel : List String) (arr : List MonthlyReport)
    (h : ∀ r ∈ arr, identityKey r ∈ sel) :
    chartRowServices sel arr = chartRowServices [] arr := by
  unfold chartRowServices
  rw [chartFold_of_all_mem sel arr h, chartFold_empty_sel arr]

/-- Counterexample to claim C1: with one stored report and an empty
account selection, the per-month service map of chartData is not empty
— the lone report still contributes its Amazon S3 cost. -/
theorem chartData_empty_selection_counterexample :
    chartData sampleStore [] = [⟨"2024-05", [("Amazon S3", 1)]⟩] ∧
    ([("Amazon S3", (1 : ℚ))] : List (String × ℚ)) ≠ [] := by
  constructor
  · simp +decide [chartData, sampleStore, sampleReport, sortedMonths, strLe,
      chartRowServices, skippedByAccountFilter, identityKey, accumulateReport,
      addToRecord, jsAdd_zero_one, setRecord_cons, setRecord_nil, lookupRecord_cons,
      lookupRecord_nil, List.insertionSort, List.orderedInsert]
  · simp

/-- Claim C1 amended: with an empty account selection chartData does
not exclude anything; it coincides with chartData under the full
account universe — every report contributes to its month's service
map. -/
theorem chartData_empty_selection_includes_all (store : List (String × List MonthlyReport)) :
    chartData store [] = chartData store (accounts store) := by
  unfold chartData
  refine List.map_congr_left fun month _ => ?_
  cases h : lookupRecord store month with
  | none => rfl
  | some arr =>
    have hmem : ∀ r ∈ arr, identityKey r ∈ accounts store := by
      intro r hr
      exact mem_accounts_of_mem_allKeys store _
        (mem_allKeys store month arr r (lookupRecord_mem store month arr h) hr)
    simp only [Option.getD_some]
    rw [chartRowServices_all_mem (accounts store) arr hmem]

/-! ### C4: which rows the row normalizer discards -/

lemma rowStep_skip_of_zero_cost (acc : List (String × ℚ) × ℚ) (r : RawRow)
    (h : normalizeCost r.cost = 0) : rowStep acc r = acc := by
  cases hp : r.product_name with
  | none => simp [rowStep, hp]
  | some s =>
    by_cases ht : jsTrim s = ""
    · simp [rowStep, hp, ht]
    · simp [rowStep, hp, ht, h]

/-- A row whose cost does not parse as a decimal. -/
def invalidCostRow : RawRow := ⟨some "AWS Config", some "abc"⟩

/-- A row with a negative cost. -/
def negativeCostRow : RawRow := ⟨some "Amazon EC2", some "-1"⟩

/-- Two ordinary rows surrounding the skipped one in the witness. -/
def plainRowA : RawRow := ⟨some "Amazon EC2", some "2"⟩

def plainRowB : RawRow := ⟨some "Amazon S3", some "3"⟩

/-- Counterexample to claim C4: a row with the non-positive (negative)
cost -1 is not discarded; it contributes Amazon EC2 -> -1 to the
services map and -1 to the total. -/
theorem negative_cost_row_counterexample :
    normalizeCost negativeCostRow.cost < 0 ∧
    buildServicesTotal [negativeCostRow] = ([("Amazon EC2", -1)], -1) ∧
    buildServicesTotal [negativeCostRow] ≠ buildServicesTotal [] := by
  have h1 : normalizeCost negativeCostRow.cost = -1 := normalizeCost_neg_one
  have h2 : buildServicesTotal [negativeCostRow] = ([("Amazon EC2", -1)], -1) := by
    simp +decide [buildServicesTotal, rowStep, negativeCostRow, jsTrim,
      normalizeCost_neg_one, jsAdd_zero_neg_one, addToRecord, setRecord_nil,
      lookupRecord_nil, show (-1 : ℚ) ≠ 0 by norm_num,
      List.dropWhile, List.takeWhile, List.filter]
  refine ⟨by rw [h1]; norm_num, h2, ?_⟩
  rw [h2]
  simp [buildServicesTotal]

/-- Claim C4 amended: if the row's cleaned cost fails to parse as a
finite decimal (including values that round outside the finite double
range) or parses to exactly zero — i.e. whenever normalizeCost yields
0 — the row is discarded: it contributes nothing to the services map
and nothing to the total.  Rows with negative finite costs are kept,
see the counterexample. -/
theorem zero_cost_row_discarded (l₁ l₂ : List RawRow) (r : RawRow)
    (h : normalizeCost r.cost = 0) :
    buildServicesTotal (l₁ ++ r :: l₂) = buildServicesTotal (l₁ ++ l₂) := by
  unfold buildServicesTotal
  rw [List.foldl_append, List.foldl_append, List.foldl_cons,
    rowStep_skip_of_zero_cost _ r h]

/-- Witness for the amended C4 at a concrete batch of rows. -/
theorem zero_cost_row_discarded_witness :
    normalizeCost invalidCostRow.cost = 0 ∧
    buildServicesTotal ([plainRowA] ++ invalidCostRow :: [plainRowB]) =
      buildServicesTotal ([plainRowA] ++ [plainRowB]) := by
  have h : normalizeCost invalidCostRow.cost = 0 := by
    simp +decide [normalizeCost, invalidCostRow, jsParseFloat, jsDecimalValue,
      stripCurrency, digitsToNat, readExp, Option.bind,
      List.dropWhile, List.takeWhile, List.filter, List.take]
  exact ⟨h, zero_cost_row_discarded [plainRowA] [plainRowB] invalidCostRow h⟩

/-! ### C6: the grand-total invariant of one report -/

lemma sum_addToRecordExact (l : List (String × ℚ)) (k : String) (v : ℚ) :
    ((addToRecordExact l k v).map Prod.snd).sum = (l.map Prod.snd).sum + v := by
  unfold addToRecordExact
  induction l with
  | nil => simp [setRecord, lookupRecord]
  | cons p rest ih =>
    by_cases hk : p.1 = k
    · simp only [setRecord, lookupRecord, if_pos hk, Option.getD_some, List.map_cons,
        List.sum_cons]
      ring
    · simp only [setRecord, lookupRecord, if_neg hk, List.map_cons, List.sum_cons] at ih ⊢
      rw [ih]
      ring

lemma buildServicesTotalExact_snd_eq_sum (rows : List RawRow) :
    (buildServicesTotalExact rows).2 =
      ((buildServicesTotalExact rows).1.map Prod.snd).sum := by
  suffices h : ∀ acc : List (String × ℚ) × ℚ, acc.2 = (acc.1.map Prod.snd).sum →
      (rows.foldl rowStepExact acc).2 =
        ((rows.foldl rowStepExact acc).1.map Prod.snd).sum by
    exact h ([], 0) (by simp)
  induction rows with
  | nil => intro acc h; exact h
  | cons r rest ih =>
    intro acc h
    rw [List.foldl_cons]
    apply ih
    cases hp : r.product_name with
    | none => simpa [rowStepExact, hp] using h
    | some s =>
      by_cases ht : jsTrim s = ""
      · simpa [rowStepExact, hp, ht] using h
      · by_cases hc : normalizeCost r.cost = 0
        · simpa [rowStepExact, hp, ht, hc] using h
        · simp [rowStepExact, hp, ht, hc, sum_addToRecordExact, h]

/-- The rows of the C6 counterexample: two one-dollar rows and one row
so large that adding a dollar to it rounds away. -/
def roundingRows : List RawRow :=
  [⟨some "Amazon EC2", some "1"⟩, ⟨some "Amazon S3", some "1"⟩,
   ⟨some "Amazon EC2", some "10000000000000000"⟩]

/-- Counterexample to claim C6: under the double arithmetic the source
uses, these rows produce total 10^16 + 2 while the services map holds
10^16 and 1 — the total accumulates 1+1 before the big row, but the
Amazon EC2 entry loses its first dollar to the rounding of 1 + 10^16,
so the total differs from the sum of the services-map values. -/
theorem double_rounding_breaks_total_counterexample :
    parseMonthlyReport "monthly-report-2024-09-444444444444.csv" roundingRows [] =
      Except.ok ⟨⟨"2024-09", [("Amazon EC2", 10000000000000000), ("Amazon S3", 1)],
        10000000000000002, "monthly-report-2024-09-444444444444.csv",
        some "444444444444"⟩, []⟩ ∧
    ¬ ((10000000000000002 : ℚ) =
        (([("Amazon EC2", (10000000000000000 : ℚ)), ("Amazon S3", 1)].map
          Prod.snd)).sum) := by
  constructor
  · simp +decide [parseMonthlyReport, extractMonthFromFileName,
      extractAccountFromFileName, scanMonth, scanAccount, tryMonthAt, tryAccountAt,
      monthlyReportPre, buildServicesTotal, rowStep, jsTrim, roundingRows,
      normalizeCost_one, normalizeCost_1e16, jsAdd_zero_one, jsAdd_one_one,
      jsAdd_one_1e16, jsAdd_two_1e16, addToRecord, setRecord_cons, setRecord_nil,
      lookupRecord_cons, lookupRecord_nil,
      show (10000000000000000 : ℚ) ≠ 0 by norm_num,
      List.dropWhile, List.takeWhile, List.filter, List.take, List.drop]
  · norm_num

/-- Claim C6 amended: the total field is the double-arithmetic
accumulation, in row order, of the kept rows' costs.  Whenever that
accumulation coincides with exact rational accumulation — no addition
rounds — the total equals the sum of the values in the services map;
IEEE rounding can break the equality (see the counterexample). -/
theorem report_total_eq_services_sum (fileName : String) (rows : List RawRow)
    (errors : List PapaError) (ps : ParseSuccess)
    (h : parseMonthlyReport fileName rows errors = Except.ok ps)
    (hexact : buildServicesTotal rows = buildServicesTotalExact rows) :
    ps.report.total = (ps.report.services.map Prod.snd).sum := by
  unfold parseMonthlyReport at h
  cases hm : extractMonthFromFileName fileName with
  | none =>
    rw [hm] at h
    exact absurd h (by simp)
  | some m =>
    rw [hm] at h
    simp only [Except.ok.injEq] at h
    rw [← h]
    show (buildServicesTotal rows).2 = ((buildServicesTotal rows).1.map Prod.snd).sum
    rw [hexact]
    exact buildServicesTotalExact_snd_eq_sum rows

/-- The rows of the C6 witness file: small integer costs, every
addition exact. -/
def witnessRows : List RawRow :=
  [⟨some "Amazon EC2", some "2"⟩, ⟨some "Amazon S3", some "3"⟩]

/-- The parse result of the C6 witness file. -/
def witnessPS : ParseSuccess :=
  ⟨⟨"2024-06", [("Amazon EC2", 2), ("Amazon S3", 3)], 5,
    "monthly-report-2024-06-222222222222.csv", some "222222222222"⟩, []⟩

lemma witnessRows_double_eval :
    buildServicesTotal witnessRows = ([("Amazon EC2", 2), ("Amazon S3", 3)], 5) := by
  simp +decide [buildServicesTotal, rowStep, jsTrim, witnessRows, normalizeCost_two,
    normalizeCost_three, jsAdd_zero_two, jsAdd_zero_three, jsAdd_two_three, addToRecord,
    setRecord_cons, setRecord_nil, lookupRecord_cons, lookupRecord_nil,
    show (2 : ℚ) ≠ 0 by norm_num, show (3 : ℚ) ≠ 0 by norm_num,
    List.dropWhile, List.takeWhile, List.filter, List.take]

lemma witnessRows_exact_eval :
    buildServicesTotalExact witnessRows = ([("Amazon EC2", 2), ("Amazon S3", 3)], 5) := by
  simp +decide [buildServicesTotalExact, rowStepExact, jsTrim, witnessRows,
    normalizeCost_two, normalizeCost_three, addToRecordExact, setRecord_cons,
    setRecord_nil, lookupRecord_cons, lookupRecord_nil,
    show (2 : ℚ) ≠ 0 by norm_num, show (3 : ℚ) ≠ 0 by norm_num,
    List.dropWhile, List.takeWhile, List.filter, List.take]
  norm_num

/-- Witness for the amended C6 at a concrete file whose additions are
all exact. -/
theorem report_total_eq_services_sum_witness :
    witnessPS.report.total = (witnessPS.report.services.map Prod.snd).sum :=
  report_total_eq_services_sum "monthly-report-2024-06-222222222222.csv" witnessRows []
    witnessPS
    (by
      simp +decide [parseMonthlyReport, extractMonthFromFileName,
        extractAccountFromFileName, scanMonth, scanAccount, tryMonthAt, tryAccountAt,
        monthlyReportPre, witnessPS, witnessRows_double_eval,
        List.dropWhile, List.takeWhile, List.filter, List.take, List.drop]
    )
    (by rw [witnessRows_double_eval, witnessRows_exact_eval])

/-! ### C5: the upsert replaces in place -/

lemma findIndex_cons (p : MonthlyReport → Bool) (x : MonthlyReport) (xs : List MonthlyReport) :
    findIndex p (x :: xs) = if p x then some 0 else (findIndex p xs).map (fun n => n + 1) := by
  rw [findIndex]

lemma findIndex_found (p : MonthlyReport → Bool) :
    ∀ (l : List MonthlyReport) (i : Nat), findIndex p l = some i →
      ∃ x, l.get? i = some x ∧ p x = true := by
  intro l
  induction l with
  | nil => intro i h; simp [findIndex] at h
  | cons x xs ih =>
    intro i h
    rw [findIndex_cons] at h
    by_cases hp : p x
    · rw [if_pos hp] at h
      simp only [Option.some.injEq] at h
      subst h
      exact ⟨x, rfl, hp⟩
    · rw [if_neg hp] at h
      rcases Option.map_eq_some'.mp h with ⟨j, hj, hji⟩
      rcases ih j hj with ⟨y, hy, hpy⟩
      subst hji
      exact ⟨y, by simpa using hy, hpy⟩

lemma get?_set_self {α : Type} (l : List α) (i : Nat) (a : α) (h : i < l.length) :
    (l.set i a).get? i = some a := by
  induction l generalizing i with
  | nil => simp at h
  | cons x xs ih =>
    cases i with
    | zero => rfl
    | succ j => simpa using ih j (by simpa using h)

lemma get?_set_ne {α : Type} (l : List α) (i j : Nat) (a : α) (h : j ≠ i) :
    (l.set i a).get? j = l.get? j := by
  induction l generalizing i j with
  | nil => simp
  | cons x xs ih =>
    cases i with
    | zero =>
      cases j with
      | zero => exact absurd rfl h
      | succ j' => simp
    | succ i' =>
      cases j with
      | zero => rfl
      | succ j' => simpa using ih i' j' (fun e => h (by rw [e]))

lemma set_get?_self {α : Type} (l : List α) (i : Nat) (v : α) (h : l.get? i = some v) :
    l.set i v = l := by
  induction l generalizing i with
  | nil => rfl
  | cons x xs ih =>
    cases i with
    | zero =>
      have hv : x = v := by simpa using h
      simp [List.set, hv]
    | succ j => simp only [List.set]; rw [ih j (by simpa using h)]

lemma map_set {α β : Type} (l : List α) (i : Nat) (a : α) (f : α → β) :
    (l.set i a).map f = (l.map f).set i (f a) := by
  induction l generalizing i with
  | nil => rfl
  | cons x xs ih =>
    cases i with
    | zero => rfl
    | succ j => simp only [List.set, List.map_cons]; rw [ih]

lemma get?_map_eq {α β : Type} (f : α → β) (l : List α) (i : Nat) :
    (l.map f).get? i = (l.get? i).map f := by
  induction l generalizing i with
  | nil => simp
  | cons x xs ih =>
    cases i with
    | zero => rfl
    | succ j => simp only [List.map_cons, List.get?_cons_succ]; exact ih j

lemma lookupRecord_setRecord_self {α : Type} (store : List (String × α)) (k : String) (v : α) :
    lookupRecord (setRecord store k v) k = some v := by
  induction store with
  | nil => simp [setRecord, lookupRecord]
  | cons p rest ih =>
    by_cases hk : p.1 = k
    · rw [setRecord_cons, if_pos hk, lookupRecord_cons, if_pos rfl]
    · rw [setRecord_cons, if_neg hk, lookupRecord_cons, if_neg hk]
      exact ih

/-- Claim C5: when a report with the same identity key is already
stored for the month, the upsert replaces it at its existing position:
the list keeps its length, the entry at the found index becomes the new
report, every other position is untouched, the multiset of identity
keys is unchanged, key-uniqueness of the list is preserved, and the
store holds the upserted list under the report's month. -/
theorem upsert_replaces_in_place (arr : List MonthlyReport) (r : MonthlyReport) (i : Nat)
    (h : findIndex (fun x => identityKey x = identityKey r) arr = some i) :
    (upsertReport arr r).length = arr.length ∧
    (upsertReport arr r).get? i = some r ∧
    (∀ j, j ≠ i → (upsertReport arr r).get? j = arr.get? j) ∧
    (upsertReport arr r).map identityKey = arr.map identityKey ∧
    (List.Pairwise (fun a b => identityKey a ≠ identityKey b) arr →
      List.Pairwise (fun a b => identityKey a ≠ identityKey b) (upsertReport arr r)) ∧
    (∀ store, lookupRecord store r.month = some arr →
      lookupRecord (upsertMonth store r) r.month = some (upsertReport arr r)) := by
  have hup : upsertReport arr r = arr.set i r := by
    unfold upsertReport
    rw [h]
  rcases findIndex_found _ arr i h with ⟨x, hx, hpx⟩
  have hkey : identityKey x = identityKey r := of_decide_eq_true hpx
  have hilt : i < arr.length := by
    by_contra hge
    rw [List.get?_eq_none.mpr (Nat.le_of_not_lt hge)] at hx
    exact Option.noConfusion hx
  have hmap : (upsertReport arr r).map identityKey = arr.map identityKey := by
    rw [hup, map_set]
    apply set_get?_self
    rw [get?_map_eq, hx]
    simp [hkey]
  refine ⟨?_, ?_, ?_, hmap, ?_, ?_⟩
  · rw [hup]; exact List.length_set arr i r
  · rw [hup]; exact get?_set_self arr i r hilt
  · intro j hj; rw [hup]; exact get?_set_ne arr i j r hj
  · intro hpw
    have h1 : List.Pairwise (fun a b : String => a ≠ b) (arr.map identityKey) :=
      (List.pairwise_map).mpr hpw
    rw [← hmap] at h1
    exact (List.pairwise_map).mp h1
  · intro store hs
    unfold upsertMonth
    rw [hs]
    simp only [Option.getD_some]
    exact lookupRecord_setRecord_self store r.month (upsertReport arr r)

/-- A second stored account for the C5 witness month. -/
def secondReport : MonthlyReport :=
  { month := "2024-05"
    services := [("Amazon EC2", 2)]
    total := 2
    fileName := "monthly-report-2024-05-222222222222.csv"
    accountId := some "222222222222" }

/-- A re-upload of the second account with new figures. -/
def replacementReport : MonthlyReport :=
  { month := "2024-05"
    services := [("AWS Lambda", 3)]
    total := 3
    fileName := "monthly-report-2024-05-222222222222.csv"
    accountId := some "222222222222" }

/-- The month's report list before the re-upload. -/
def witnessArr : List MonthlyReport := [sampleReport, secondReport]

/-- Witness for C5: re-uploading the second account replaces it at
index 1, keeping the list length at 2 and leaving index 0 untouched. -/
theorem upsert_replaces_in_place_witness :
    (upsertReport witnessArr replacementReport).length = witnessArr.length ∧
    (upsertReport witnessArr replacementReport).get? 1 = some replacementReport ∧
    (upsertReport witnessArr replacementReport).get? 0 = some sampleReport := by
  have h := upsert_replaces_in_place witnessArr replacementReport 1 (by decide)
  exact ⟨h.1, h.2.1, by rw [h.2.2.1 0 (by decide)]; rfl⟩

/-! ### C7: the grand total with an empty selection -/

lemma foldl_zero_of_step_zero {α : Type} (f : ℚ → α → ℚ) (l : List α)
    (h : ∀ x, f 0 x = 0) : l.foldl f 0 = 0 := by
  induction l with
  | nil => rfl
  | cons a t ih =>
    rw [List.foldl_cons, h a]
    exact ih

/-- Claim C7: whenever any one of the three selection sets is empty,
totalCost is 0, in both aggregation modes and for every store and
every content of the other two selections. -/
theorem totalCost_zero_of_empty_selection (store : List (String × List MonthlyReport))
    (selectedMonths selectedServices selectedAccounts : List String) (mode : AggMode)
    (h : selectedAccounts = [] ∨ selectedMonths = [] ∨ selectedServices = []) :
    totalCost store selectedMonths selectedServices selectedAccounts mode = 0 := by
  rcases h with ha | hm | hs
  · cases mode <;> simp [totalCost, ha]
  · cases mode <;> simp [totalCost, hm]
  · cases mode
    · simp [totalCost, hs]
    · simp only [totalCost]
      simp [hs]
      intro _ _
      apply foldl_zero_of_step_zero
      intro month
      apply foldl_zero_of_step_zero
      intro report
      by_cases hskip : skippedByAccountFilter selectedAccounts report
      · simp [hskip]
      · simp [hskip, jsAdd, roundDouble]

/-- Witness for C7: a concrete store with data, an empty month
selection, and non-empty account and service selections. -/
theorem totalCost_zero_of_empty_selection_witness :
    totalCost sampleStore [] ["Amazon S3"] ["111111111111"] AggMode.service = 0 :=
  totalCost_zero_of_empty_selection sampleStore [] ["Amazon S3"] ["111111111111"]
    AggMode.service (Or.inr (Or.inl rfl))

/-! ### C10: the warnings cap of a batch -/

/-- Claim C10: after a non-empty batch is processed the stored warnings
list never exceeds 5 entries (the global per-batch cap), and each
successfully parsed file contributed at most 5 warnings of its own (the
per-file cap). -/
theorem processFiles_warnings_capped (st : AppState) (files : List InputFile)
    (h : files ≠ []) :
    (processFiles st files).warnings.length ≤ 5 ∧
    (∀ f ∈ files, ∀ ps, parseFileInput f = Except.ok ps → ps.warnings.length ≤ 5) := by
  constructor
  · unfold processFiles
    rw [if_neg h]
    exact (List.length_take_le 5 _)
  · intro f _ ps hps
    unfold parseFileInput parseMonthlyReport at hps
    cases hm : extractMonthFromFileName f.name with
    | none =>
      rw [hm] at hps
      exact absurd hps (by simp)
    | some m =>
      rw [hm] at hps
      simp only [Except.ok.injEq] at hps
      rw [← hps]
      by_cases he : f.errors ≠ []
      · simp only [if_pos he]
        calc ((f.errors.take 5).map (formatWarning f.name)).length
            = (f.errors.take 5).length := List.length_map _ _
          _ ≤ 5 := List.length_take_le 5 _
      · simp [if_neg he]

/-- A parse-layer error used by the C10 witness batch. -/
def witnessError : PapaError := ⟨some 1, "Too many fields"⟩

/-- A C10 witness batch: two files, seven parse-layer errors each. -/
def witnessFiles : List InputFile :=
  [⟨"monthly-report-2024-07-333333333333.csv", [],
    [witnessError, witnessError, witnessError, witnessError, witnessError, witnessError,
     witnessError]⟩,
   ⟨"monthly-report-2024-08-333333333333.csv", [],
    [witnessError, witnessError, witnessError, witnessError, witnessError, witnessError,
     witnessError]⟩]

/-- Witness for C10 at a concrete batch with many warnings. -/
theorem processFiles_warnings_capped_witness :
    (processFiles sampleState witnessFiles).warnings.length ≤ 5 :=
  (processFiles_warnings_capped sampleState witnessFiles (by decide)).1

/-! ### C8: ranking order, stability and Top 10 -/

lemma filter_orderedInsert (x : String × ℚ) (l : List (String × ℚ)) (c : ℚ) :
    (List.orderedInsert rankDescRel x l).filter (fun p => decide (p.2 = c)) =
      if x.2 = c then x :: l.filter (fun p => decide (p.2 = c))
      else l.filter (fun p => decide (p.2 = c)) := by
  induction l with
  | nil =>
    by_cases hx : x.2 = c <;> simp [List.orderedInsert, List.filter, hx]
  | cons b t ih =>
    rw [List.orderedInsert]
    by_cases hr : rankDescRel x b
    · rw [if_pos hr]
      by_cases hx : x.2 = c <;> simp [List.filter_cons, hx]
    · rw [if_neg hr]
      by_cases hx : x.2 = c
      · have hb : ¬(b.2 = c) := by
          intro hbc
          exact hr (le_of_eq (by rw [hbc, hx]))
        simp [List.filter_cons, hb, hx, ih]
      · by_cases hb : b.2 = c <;> simp [List.filter_cons, hb, hx, ih]

lemma filter_insertionSort (l : List (String × ℚ)) (c : ℚ) :
    (List.insertionSort rankDescRel l).filter (fun p => decide (p.2 = c)) =
      l.filter (fun p => decide (p.2 = c)) := by
  induction l with
  | nil => rfl
  | cons a t ih =>
    rw [List.insertionSort, filter_orderedInsert]
    by_cases ha : a.2 = c <;> simp [List.filter_cons, ha, ih]

lemma take_eq_take_min {α : Type} (l : List α) (n : Nat) :
    l.take n = l.take (min n l.length) := by
  rcases le_total l.length n with h | h
  · rw [min_eq_right h, List.take_of_length_le h, List.take_length]
  · rw [min_eq_left h]

/-- Claim C8: the ranked service list is sorted by descending
aggregated total; the sort is stable — for every total value the
services carrying it appear in their original encounter order — and
selectTop10 selects exactly the first min(10, N) entries of the
ranking. -/
theorem rankedServices_sorted_stable_top10 (store : List (String × List MonthlyReport))
    (sel : List String) :
    List.Sorted rankDescRel (rankedServicePairs store sel) ∧
    (∀ c : ℚ, (rankedServicePairs store sel).filter (fun p => decide (p.2 = c)) =
      (serviceTotalsList store sel).filter (fun p => decide (p.2 = c))) ∧
    selectTop10 store sel =
      (services store sel).take (min 10 (services store sel).length) ∧
    (selectTop10 store sel).length = min 10 (services store sel).length := by
  refine ⟨List.sorted_insertionSort rankDescRel _, fun c => filter_insertionSort _ c, ?_, ?_⟩
  · unfold selectTop10
    exact take_eq_take_min _ 10
  · unfold selectTop10
    exact List.length_take 10 _

/-! ### C3: when month extraction fails -/

/-- The spec's reading of the month pattern as the claim states it: the
literal prefix followed by a YYYY-MM token, with no constraint on what
follows. -/
def monthTokenAt (l : List Char) : Prop :=
  ∃ d4 d2 rest, l = monthlyReportPre ++ (d4 ++ ('-' :: (d2 ++ rest))) ∧
    d4.length = 4 ∧ (∀ c ∈ d4, c.isDigit = true) ∧
    d2.length = 2 ∧ (∀ c ∈ d2, c.isDigit = true)

/-- The pattern the source regex actually requires: the month token
must be followed by one more hyphen. -/
def monthHyphenTokenAt (l : List Char) : Prop :=
  ∃ d4 d2 rest, l = monthlyReportPre ++ (d4 ++ ('-' :: (d2 ++ ('-' :: rest)))) ∧
    d4.length = 4 ∧ (∀ c ∈ d4, c.isDigit = true) ∧
    d2.length = 2 ∧ (∀ c ∈ d2, c.isDigit = true)

/-- The file name contains, at some position, the prefix followed by a
YYYY-MM token (the claim's condition). -/
def specHasMonthToken (f : String) : Prop := ∃ n, monthTokenAt (f.data.drop n)

/-- The file name contains, at some position, the prefix followed by a
YYYY-MM token and a hyphen (the condition the code tests). -/
def specHasMonthHyphenToken (f : String) : Prop := ∃ n, monthHyphenTokenAt (f.data.drop n)

lemma tryMonthAt_isSome_iff (l : List Char) :
    (tryMonthAt l).isSome = true ↔ monthHyphenTokenAt l := by
  constructor
  · intro hsome
    by_cases hc : (l.take 15 = monthlyReportPre
        ∧ ((l.drop 15).take 4).length = 4 ∧ ((l.drop 15).take 4).all Char.isDigit
        ∧ (((l.drop 15).drop 4).take 1) = ['-']
        ∧ (((l.drop 15).drop 5).take 2).length = 2
        ∧ (((l.drop 15).drop 5).take 2).all Char.isDigit
        ∧ (((l.drop 15).drop 7).take 1) = ['-'])
    · obtain ⟨h15, hlen4, hdig4, hhy1, hlen2, hdig2, hhy2⟩ := hc
      refine ⟨(l.drop 15).take 4, ((l.drop 15).drop 5).take 2, (l.drop 15).drop 8,
        ?_, hlen4, List.all_eq_true.mp hdig4, hlen2, List.all_eq_true.mp hdig2⟩
      have e0 : l = l.take 15 ++ l.drop 15 := (List.take_append_drop 15 l).symm
      have e1 : l.drop 15 = (l.drop 15).take 4 ++ (l.drop 15).drop 4 :=
        (List.take_append_drop 4 _).symm
      have d45 : ((l.drop 15).drop 4).drop 1 = (l.drop 15).drop 5 :=
        List.drop_drop 1 4 (l.drop 15)
      have d57 : ((l.drop 15).drop 5).drop 2 = (l.drop 15).drop 7 :=
        List.drop_drop 2 5 (l.drop 15)
      have d78 : ((l.drop 15).drop 7).drop 1 = (l.drop 15).drop 8 :=
        List.drop_drop 1 7 (l.drop 15)
      have e2 : (l.drop 15).drop 4 = '-' :: (l.drop 15).drop 5 := by
        have h1 := (List.take_append_drop 1 ((l.drop 15).drop 4)).symm
        rw [hhy1, d45, List.singleton_append] at h1
        exact h1
      have e3 : (l.drop 15).drop 5 =
          ((l.drop 15).drop 5).take 2 ++ (l.drop 15).drop 7 := by
        have h1 := (List.take_append_drop 2 ((l.drop 15).drop 5)).symm
        rw [d57] at h1
        exact h1
      have e4 : (l.drop 15).drop 7 = '-' :: (l.drop 15).drop 8 := by
        have h1 := (List.take_append_drop 1 ((l.drop 15).drop 7)).symm
        rw [hhy2, d78, List.singleton_append] at h1
        exact h1
      calc l = l.take 15 ++ l.drop 15 := e0
        _ = monthlyReportPre ++ l.drop 15 := by rw [h15]
        _ = monthlyReportPre ++ ((l.drop 15).take 4 ++ (l.drop 15).drop 4) := by rw [← e1]
        _ = monthlyReportPre ++ ((l.drop 15).take 4 ++ ('-' :: (l.drop 15).drop 5)) := by
              rw [← e2]
        _ = monthlyReportPre ++ ((l.drop 15).take 4 ++
              ('-' :: (((l.drop 15).drop 5).take 2 ++ (l.drop 15).drop 7))) := by rw [← e3]
        _ = monthlyReportPre ++ ((l.drop 15).take 4 ++
              ('-' :: (((l.drop 15).drop 5).take 2 ++ ('-' :: (l.drop 15).drop 8)))) := by
              rw [← e4]
    · unfold tryMonthAt at hsome
      rw [if_neg hc] at hsome
      simp at hsome
  · rintro ⟨d4, d2, rest, heq, hlen4, hdig4, hlen2, hdig2⟩
    have hpre : monthlyReportPre.length = 15 := rfl
    have h15 : l.take 15 = monthlyReportPre := by
      rw [heq, ← hpre, List.take_left]
    have hdrop : l.drop 15 = d4 ++ ('-' :: (d2 ++ ('-' :: rest))) := by
      rw [heq, ← hpre, List.drop_left]
    have ht4 : (l.drop 15).take 4 = d4 := by rw [hdrop, List.take_left' hlen4]
    have hd4 : (l.drop 15).drop 4 = '-' :: (d2 ++ ('-' :: rest)) := by
      rw [hdrop, List.drop_left' hlen4]
    have hd5 : (l.drop 15).drop 5 = d2 ++ ('-' :: rest) := by
      have h1 : ((l.drop 15).drop 4).drop 1 = (l.drop 15).drop 5 :=
        List.drop_drop 1 4 (l.drop 15)
      rw [← h1, hd4]
      rfl
    have ht2 : ((l.drop 15).drop 5).take 2 = d2 := by rw [hd5, List.take_left' hlen2]
    have hd7 : (l.drop 15).drop 7 = '-' :: rest := by
      have h1 : ((l.drop 15).drop 5).drop 2 = (l.drop 15).drop 7 :=
        List.drop_drop 2 5 (l.drop 15)
      rw [← h1, hd5, List.drop_left' hlen2]
    have hc : (l.take 15 = monthlyReportPre
        ∧ ((l.drop 15).take 4).length = 4 ∧ ((l.drop 15).take 4).all Char.isDigit
        ∧ (((l.drop 15).drop 4).take 1) = ['-']
        ∧ (((l.drop 15).drop 5).take 2).length = 2
        ∧ (((l.drop 15).drop 5).take 2).all Char.isDigit
        ∧ (((l.drop 15).drop 7).take 1) = ['-']) := by
      refine ⟨h15, by rw [ht4]; exact hlen4,
        by rw [ht4]; exact List.all_eq_true.mpr hdig4,
        by rw [hd4]; rfl,
        by rw [ht2]; exact hlen2,
        by rw [ht2]; exact List.all_eq_true.mpr hdig2,
        by rw [hd7]; rfl⟩
    unfold tryMonthAt
    rw [if_pos hc]
    rfl

lemma scanMonth_isSome_iff (l : List Char) :
    (scanMonth l).isSome = true ↔ ∃ n, (tryMonthAt (l.drop n)).isSome = true := by
  induction l with
  | nil =>
    simp only [scanMonth, Option.isSome_none, Bool.false_eq_true, false_iff]
    rintro ⟨n, hn⟩
    rw [List.drop_nil] at hn
    simp [tryMonthAt, monthlyReportPre] at hn
  | cons c rest ih =>
    rw [scanMonth]
    constructor
    · intro h
      cases htry : tryMonthAt (c :: rest) with
      | some m => exact ⟨0, by rw [List.drop_zero, htry]; rfl⟩
      | none =>
        rw [htry] at h
        rcases ih.mp h with ⟨n, hn⟩
        exact ⟨n + 1, by simpa using hn⟩
    · rintro ⟨n, hn⟩
      cases htry : tryMonthAt (c :: rest) with
      | some m => rfl
      | none =>
        show (scanMonth rest).isSome = true
        apply ih.mpr
        cases n with
        | zero =>
          rw [List.drop_zero] at hn
          rw [htry] at hn
          simp at hn
        | succ k => exact ⟨k, by simpa using hn⟩

lemma extractMonth_none_iff (f : String) :
    extractMonthFromFileName f = none ↔ ¬ specHasMonthHyphenToken f := by
  unfold extractMonthFromFileName
  rw [Option.map_eq_none']
  constructor
  · intro h hspec
    rcases hspec with ⟨n, hn⟩
    have : (scanMonth f.data).isSome = true :=
      (scanMonth_isSome_iff f.data).mpr ⟨n, (tryMonthAt_isSome_iff _).mpr hn⟩
    rw [h] at this
    simp at this
  · intro h
    cases hs : scanMonth f.data with
    | none => rfl
    | some m =>
      exfalso
      have : (scanMonth f.data).isSome = true := by rw [hs]; rfl
      rcases (scanMonth_isSome_iff f.data).mp this with ⟨n, hn⟩
      exact h ⟨n, (tryMonthAt_isSome_iff _).mp hn⟩

/-- Counterexample to claim C3: the name monthly-report-2024-05.csv
does contain a parseable YYYY-MM token right after the literal prefix,
yet month extraction returns nothing and the report builder rejects the
file — the regex also demands a hyphen after the month token. -/
theorem month_token_without_hyphen_counterexample :
    specHasMonthToken "monthly-report-2024-05.csv" ∧
    extractMonthFromFileName "monthly-report-2024-05.csv" = none ∧
    (∃ e, parseMonthlyReport "monthly-report-2024-05.csv" [] [] = Except.error e) := by
  refine ⟨⟨0, ['2', '0', '2', '4'], ['0', '5'], ['.', 'c', 's', 'v'], ?_, ?_, ?_, ?_, ?_⟩,
    ?_, ?_⟩
  · rfl
  · rfl
  · decide
  · rfl
  · decide
  · rfl
  · exact ⟨_, rfl⟩

/-- Claim C3 amended: the report builder fails with the
month-extraction error exactly when the file name nowhere contains the
literal prefix followed by a YYYY-MM token and one more hyphen; in
particular monthly-report-2024-05.csv (month token but no trailing
hyphen) is rejected. -/
theorem parse_fails_iff_no_month_hyphen_token (fileName : String) (rows : List RawRow)
    (errors : List PapaError) :
    (∃ e, parseMonthlyReport fileName rows errors = Except.error e) ↔
      ¬ specHasMonthHyphenToken fileName := by
  rw [← extractMonth_none_iff]
  unfold parseMonthlyReport
  cases hm : extractMonthFromFileName fileName with
  | none => simp
  | some m => simp

end PricingChart
